import Mathlib

/-!
Verification development for the coturn exporter's metric-accounting engine.

The embedding models the `histogauge` package (a bucketed live-population
gauge built on a Prometheus GaugeVec) and the per-message body of the
`watchTraffic` dispatcher.

Modelling choices, faithful to the Go source:
- Metric values and timestamps are rationals.  All gauge mutations are
  `Inc`/`Dec` by one, so series values are integers.
- A GaugeVec series is keyed by the label value and by the "le" bucket label.
  In the source the "le" label is the string `fmt.Sprintf("%g", bucket)` for
  a threshold bucket and the literal string "+Inf" for the overflow bucket;
  since `%g` is injective on distinct numbers and never produces "+Inf" for
  a finite bucket, the key is modelled as `Option ℚ`, where `some b` is the
  series for threshold `b` and `none` is the "+Inf" overflow series.
- A series that was never touched is absent; `GaugeVec.With` materializes a
  series at value 0.  Hence a series is `Option ℤ`: `none` means absent.
-/

/-- One Prometheus gauge-vector: for each label value and each "le" bucket
key (`none` = "+Inf"), either `none` (series absent) or `some n`
(series materialized, current value `n`). -/
def GaugeVec (L : Type) : Type := L → Option ℚ → Option ℤ

variable {L : Type} [DecidableEq L]

/-- Overwrite the series at one key with a concrete value. -/
def gvSet (gv : GaugeVec L) (l : L) (k : Option ℚ) (n : ℤ) : GaugeVec L :=
  fun l' k' => if l' = l ∧ k' = k then some n else gv l' k'

/-- The source's `GaugeVec.With`: materialize the series at value 0 if it
was absent, keep its value otherwise. -/
def gvWith (gv : GaugeVec L) (l : L) (k : Option ℚ) : GaugeVec L :=
  gvSet gv l k ((gv l k).getD 0)

/-- The source's `With(...).Inc()`: materialize then increment. -/
def gvInc (gv : GaugeVec L) (l : L) (k : Option ℚ) : GaugeVec L :=
  gvSet gv l k ((gv l k).getD 0 + 1)

/-- The source's `With(...).Dec()`: materialize then decrement. -/
def gvDec (gv : GaugeVec L) (l : L) (k : Option ℚ) : GaugeVec L :=
  gvSet gv l k ((gv l k).getD 0 - 1)

theorem gvSet_same (gv : GaugeVec L) (l : L) (k : Option ℚ) (n : ℤ) :
    gvSet gv l k n l k = some n := by
  simp [gvSet]

theorem gvSet_other (gv : GaugeVec L) (l : L) (k : Option ℚ) (n : ℤ)
    {l' : L} {k' : Option ℚ} (h : ¬(l' = l ∧ k' = k)) :
    gvSet gv l k n l' k' = gv l' k' := by
  simp [gvSet, h]

/-- The `histogauge` struct: the backing GaugeVec plus the fixed ascending
threshold list. -/
structure Histogauge (L : Type) where
  gaugeVec : GaugeVec L
  buckets : List ℚ

/-- The loop body of `histogauge.Add`: for each bucket, `With` (which
materializes the series) and then `Inc` when `v ≤ bucket`. -/
def addLoop (l : L) (v : ℚ) : List ℚ → GaugeVec L → GaugeVec L
  | [], gv => gv
  | b :: bs, gv =>
      addLoop l v bs
        (if v ≤ b then gvInc (gvWith gv l (some b)) l (some b)
         else gvWith gv l (some b))

/-- The loop body of `histogauge.Remove`: `With` then conditional `Dec`. -/
def removeLoop (l : L) (v : ℚ) : List ℚ → GaugeVec L → GaugeVec L
  | [], gv => gv
  | b :: bs, gv =>
      removeLoop l v bs
        (if v ≤ b then gvDec (gvWith gv l (some b)) l (some b)
         else gvWith gv l (some b))

/-- The loop body of `histogauge.Replace`: no materialization, only the
conditional `Dec`/`Inc` from the source. -/
def replaceLoop (l : L) (v o : ℚ) : List ℚ → GaugeVec L → GaugeVec L
  | [], gv => gv
  | b :: bs, gv =>
      replaceLoop l v o bs
        (if o < v then
           (if o ≤ b ∧ b < v then gvDec gv l (some b) else gv)
         else
           (if v ≤ b ∧ b < o then gvInc gv l (some b) else gv))

/-- `histogauge.Add(labels, v)`: run the bucket loop, then unconditionally
increment the "+Inf" overflow series. -/
def Histogauge.Add (h : Histogauge L) (l : L) (v : ℚ) : Histogauge L :=
  { h with gaugeVec := gvInc (addLoop l v h.buckets h.gaugeVec) l none }

/-- `histogauge.Remove(labels, v)`: run the bucket loop, then unconditionally
decrement the "+Inf" overflow series. -/
def Histogauge.Remove (h : Histogauge L) (l : L) (v : ℚ) : Histogauge L :=
  { h with gaugeVec := gvDec (removeLoop l v h.buckets h.gaugeVec) l none }

/-- `histogauge.Replace(labels, v, o)`: early return when `v == o`,
otherwise the bucket loop; the overflow series is never touched. -/
def Histogauge.Replace (h : Histogauge L) (l : L) (v o : ℚ) : Histogauge L :=
  if v = o then h
  else { h with gaugeVec := replaceLoop l v o h.buckets h.gaugeVec }

/-- Observable population of a series: absent series read as zero. -/
def Histogauge.pop (h : Histogauge L) (l : L) (k : Option ℚ) : ℤ :=
  (h.gaugeVec l k).getD 0

theorem addLoop_untouched {l : L} {v : ℚ} {bs : List ℚ} {gv : GaugeVec L}
    {l' : L} {k' : Option ℚ} (h : ∀ b ∈ bs, ¬(l' = l ∧ k' = some b)) :
    addLoop l v bs gv l' k' = gv l' k' := by
  induction bs generalizing gv with
  | nil => rfl
  | cons b bs ih =>
      rw [addLoop, ih fun c hc => h c (List.mem_cons_of_mem _ hc)]
      have hb := h b (List.mem_cons_self _ _)
      split <;> simp only [gvInc, gvWith, gvSet, if_neg hb]

theorem removeLoop_untouched {l : L} {v : ℚ} {bs : List ℚ} {gv : GaugeVec L}
    {l' : L} {k' : Option ℚ} (h : ∀ b ∈ bs, ¬(l' = l ∧ k' = some b)) :
    removeLoop l v bs gv l' k' = gv l' k' := by
  induction bs generalizing gv with
  | nil => rfl
  | cons b bs ih =>
      rw [removeLoop, ih fun c hc => h c (List.mem_cons_of_mem _ hc)]
      have hb := h b (List.mem_cons_self _ _)
      split <;> simp only [gvDec, gvWith, gvSet, if_neg hb]

theorem replaceLoop_untouched {l : L} {v o : ℚ} {bs : List ℚ} {gv : GaugeVec L}
    {l' : L} {k' : Option ℚ} (h : ∀ b ∈ bs, ¬(l' = l ∧ k' = some b)) :
    replaceLoop l v o bs gv l' k' = gv l' k' := by
  induction bs generalizing gv with
  | nil => rfl
  | cons b bs ih =>
      rw [replaceLoop, ih fun c hc => h c (List.mem_cons_of_mem _ hc)]
      have hb := h b (List.mem_cons_self _ _)
      split <;> split <;> simp only [gvDec, gvInc, gvSet, if_neg hb]

theorem addLoop_mem {l : L} {v b : ℚ} {bs : List ℚ} {gv : GaugeVec L}
    (hnd : bs.Nodup) (hb : b ∈ bs) :
    addLoop l v bs gv l (some b)
      = some ((gv l (some b)).getD 0 + if v ≤ b then 1 else 0) := by
  revert hnd hb
  induction bs generalizing gv with
  | nil => intro _ hb; cases hb
  | cons c cs ih =>
      intro hnd hb
      rcases List.nodup_cons.mp hnd with ⟨hc, hnd'⟩
      rw [addLoop]
      rcases List.mem_cons.mp hb with rfl | hb'
      · have hunt : ∀ d ∈ cs, ¬(l = l ∧ (some b : Option ℚ) = some d) := by
          rintro d hd ⟨-, he⟩
          cases Option.some.inj he
          exact hc hd
        rw [addLoop_untouched hunt]
        split <;> simp [gvInc, gvWith, gvSet]
      · have hbc : b ≠ c := fun he => hc (he ▸ hb')
        have h0 : (if v ≤ c then gvInc (gvWith gv l (some c)) l (some c)
            else gvWith gv l (some c)) l (some b) = gv l (some b) := by
          split <;> simp [gvInc, gvWith, gvSet, hbc]
        rw [ih hnd' hb', h0]

theorem removeLoop_mem {l : L} {v b : ℚ} {bs : List ℚ} {gv : GaugeVec L}
    (hnd : bs.Nodup) (hb : b ∈ bs) :
    removeLoop l v bs gv l (some b)
      = some ((gv l (some b)).getD 0 - if v ≤ b then 1 else 0) := by
  revert hnd hb
  induction bs generalizing gv with
  | nil => intro _ hb; cases hb
  | cons c cs ih =>
      intro hnd hb
      rcases List.nodup_cons.mp hnd with ⟨hc, hnd'⟩
      rw [removeLoop]
      rcases List.mem_cons.mp hb with rfl | hb'
      · have hunt : ∀ d ∈ cs, ¬(l = l ∧ (some b : Option ℚ) = some d) := by
          rintro d hd ⟨-, he⟩
          cases Option.some.inj he
          exact hc hd
        rw [removeLoop_untouched hunt]
        split <;> simp [gvDec, gvWith, gvSet]
      · have hbc : b ≠ c := fun he => hc (he ▸ hb')
        have h0 : (if v ≤ c then gvDec (gvWith gv l (some c)) l (some c)
            else gvWith gv l (some c)) l (some b) = gv l (some b) := by
          split <;> simp [gvDec, gvWith, gvSet, hbc]
        rw [ih hnd' hb', h0]

theorem replaceLoop_mem {l : L} {v o b : ℚ} {bs : List ℚ} {gv : GaugeVec L}
    (hnd : bs.Nodup) (hb : b ∈ bs) :
    replaceLoop l v o bs gv l (some b)
      = if o < v then
          (if o ≤ b ∧ b < v then some ((gv l (some b)).getD 0 - 1)
           else gv l (some b))
        else
          (if v ≤ b ∧ b < o then some ((gv l (some b)).getD 0 + 1)
           else gv l (some b)) := by
  revert hnd hb
  induction bs generalizing gv with
  | nil => intro _ hb; cases hb
  | cons c cs ih =>
      intro hnd hb
      rcases List.nodup_cons.mp hnd with ⟨hc, hnd'⟩
      rw [replaceLoop]
      rcases List.mem_cons.mp hb with rfl | hb'
      · have hunt : ∀ d ∈ cs, ¬(l = l ∧ (some b : Option ℚ) = some d) := by
          rintro d hd ⟨-, he⟩
          cases Option.some.inj he
          exact hc hd
        rw [replaceLoop_untouched hunt]
        split <;> split <;> simp [gvDec, gvInc, gvSet]
      · have hbc : b ≠ c := fun he => hc (he ▸ hb')
        have h0 : (if o < v then
              (if o ≤ c ∧ c < v then gvDec gv l (some c) else gv)
            else
              (if v ≤ c ∧ c < o then gvInc gv l (some c) else gv)) l (some b)
            = gv l (some b) := by
          split <;> split <;> simp [gvDec, gvInc, gvSet, hbc]
        rw [ih hnd' hb', h0]

theorem Histogauge.Add_buckets (h : Histogauge L) (l : L) (v : ℚ) :
    (h.Add l v).buckets = h.buckets := rfl

theorem Histogauge.Remove_buckets (h : Histogauge L) (l : L) (v : ℚ) :
    (h.Remove l v).buckets = h.buckets := rfl

theorem Histogauge.Replace_buckets (h : Histogauge L) (l : L) (v o : ℚ) :
    (h.Replace l v o).buckets = h.buckets := by
  unfold Histogauge.Replace
  split <;> rfl

theorem Histogauge.Add_series_mem {h : Histogauge L} {l : L} {v b : ℚ}
    (hnd : h.buckets.Nodup) (hb : b ∈ h.buckets) :
    (h.Add l v).gaugeVec l (some b)
      = some ((h.gaugeVec l (some b)).getD 0 + if v ≤ b then 1 else 0) := by
  show gvInc (addLoop l v h.buckets h.gaugeVec) l none l (some b) = _
  rw [gvInc, gvSet_other _ _ _ _ (by simp), addLoop_mem hnd hb]

theorem Histogauge.Add_overflow_self (h : Histogauge L) (l : L) (v : ℚ) :
    (h.Add l v).gaugeVec l none = some ((h.gaugeVec l none).getD 0 + 1) := by
  show gvInc (addLoop l v h.buckets h.gaugeVec) l none l none = _
  rw [gvInc, gvSet_same, addLoop_untouched (by simp)]

theorem Histogauge.Add_other {h : Histogauge L} {l l' : L} (hne : l' ≠ l)
    (v : ℚ) (k : Option ℚ) :
    (h.Add l v).gaugeVec l' k = h.gaugeVec l' k := by
  show gvInc (addLoop l v h.buckets h.gaugeVec) l none l' k = _
  rw [gvInc, gvSet_other _ _ _ _ (by simp [hne]),
    addLoop_untouched (by simp [hne])]

theorem Histogauge.Add_notmem {h : Histogauge L} {l : L} {v b : ℚ}
    (hb : b ∉ h.buckets) :
    (h.Add l v).gaugeVec l (some b) = h.gaugeVec l (some b) := by
  show gvInc (addLoop l v h.buckets h.gaugeVec) l none l (some b) = _
  rw [gvInc, gvSet_other _ _ _ _ (by simp)]
  exact addLoop_untouched (by
    rintro c hc ⟨-, he⟩
    cases Option.some.inj he
    exact hb hc)

theorem Histogauge.Remove_series_mem {h : Histogauge L} {l : L} {v b : ℚ}
    (hnd : h.buckets.Nodup) (hb : b ∈ h.buckets) :
    (h.Remove l v).gaugeVec l (some b)
      = some ((h.gaugeVec l (some b)).getD 0 - if v ≤ b then 1 else 0) := by
  show gvDec (removeLoop l v h.buckets h.gaugeVec) l none l (some b) = _
  rw [gvDec, gvSet_other _ _ _ _ (by simp), removeLoop_mem hnd hb]

theorem Histogauge.Remove_overflow_self (h : Histogauge L) (l : L) (v : ℚ) :
    (h.Remove l v).gaugeVec l none = some ((h.gaugeVec l none).getD 0 - 1) := by
  show gvDec (removeLoop l v h.buckets h.gaugeVec) l none l none = _
  rw [gvDec, gvSet_same, removeLoop_untouched (by simp)]

theorem Histogauge.Remove_other {h : Histogauge L} {l l' : L} (hne : l' ≠ l)
    (v : ℚ) (k : Option ℚ) :
    (h.Remove l v).gaugeVec l' k = h.gaugeVec l' k := by
  show gvDec (removeLoop l v h.buckets h.gaugeVec) l none l' k = _
  rw [gvDec, gvSet_other _ _ _ _ (by simp [hne]),
    removeLoop_untouched (by simp [hne])]

theorem Histogauge.Remove_notmem {h : Histogauge L} {l : L} {v b : ℚ}
    (hb : b ∉ h.buckets) :
    (h.Remove l v).gaugeVec l (some b) = h.gaugeVec l (some b) := by
  show gvDec (removeLoop l v h.buckets h.gaugeVec) l none l (some b) = _
  rw [gvDec, gvSet_other _ _ _ _ (by simp)]
  exact removeLoop_untouched (by
    rintro c hc ⟨-, he⟩
    cases Option.some.inj he
    exact hb hc)

theorem Histogauge.Replace_overflow (h : Histogauge L) (l l' : L) (v o : ℚ) :
    (h.Replace l v o).gaugeVec l' none = h.gaugeVec l' none := by
  unfold Histogauge.Replace
  split
  · rfl
  · exact replaceLoop_untouched (by simp)

theorem Histogauge.Replace_other {h : Histogauge L} {l l' : L} (hne : l' ≠ l)
    (v o : ℚ) (k : Option ℚ) :
    (h.Replace l v o).gaugeVec l' k = h.gaugeVec l' k := by
  unfold Histogauge.Replace
  split
  · rfl
  · exact replaceLoop_untouched (by simp [hne])

theorem replaceLoop_frame {l : L} {v o b : ℚ} {bs : List ℚ} {gv : GaugeVec L}
    (hb1 : ¬(o ≤ b ∧ b < v)) (hb2 : ¬(v ≤ b ∧ b < o)) :
    replaceLoop l v o bs gv l (some b) = gv l (some b) := by
  induction bs generalizing gv with
  | nil => rfl
  | cons c cs ih =>
      rw [replaceLoop, ih]
      split
      · split
        · rename_i hcnd
          have hbc : b ≠ c := by rintro rfl; exact hb1 hcnd
          simp [gvDec, gvSet, hbc]
        · rfl
      · split
        · rename_i hcnd
          have hbc : b ≠ c := by rintro rfl; exact hb2 hcnd
          simp [gvInc, gvSet, hbc]
        · rfl

theorem Histogauge.Replace_frame {h : Histogauge L} {l : L} {v o b : ℚ}
    (hb : ¬(min o v ≤ b ∧ b < max o v)) :
    (h.Replace l v o).gaugeVec l (some b) = h.gaugeVec l (some b) := by
  have hb1 : ¬(o ≤ b ∧ b < v) := fun hx =>
    hb ⟨le_trans (min_le_left o v) hx.1, lt_of_lt_of_le hx.2 (le_max_right o v)⟩
  have hb2 : ¬(v ≤ b ∧ b < o) := fun hx =>
    hb ⟨le_trans (min_le_right o v) hx.1, lt_of_lt_of_le hx.2 (le_max_left o v)⟩
  unfold Histogauge.Replace
  split
  · rfl
  · exact replaceLoop_frame hb1 hb2

theorem Histogauge.Replace_pop_mem {h : Histogauge L} {l : L} {v o b : ℚ}
    (hnd : h.buckets.Nodup) (hb : b ∈ h.buckets) :
    (h.Replace l v o).pop l (some b)
      = h.pop l (some b)
        + ((if v ≤ b then 1 else 0) - (if o ≤ b then 1 else 0)) := by
  unfold Histogauge.Replace
  split
  · rename_i hvo
    subst hvo
    simp [Histogauge.pop]
  · rename_i hvo
    show (replaceLoop l v o h.buckets h.gaugeVec l (some b)).getD 0 = _
    rw [replaceLoop_mem hnd hb]
    rcases lt_trichotomy o v with hlt | heq | hgt
    · rw [if_pos hlt]
      by_cases hob : o ≤ b
      · by_cases hbv : b < v
        · simp [Histogauge.pop, hob, hbv, not_le.mpr hbv, sub_eq_add_neg]
        · have hvb : v ≤ b := not_lt.mp hbv
          simp [Histogauge.pop, hob, hbv, hvb]
      · have hbo : b < o := not_le.mp hob
        have hbv : ¬v ≤ b := not_le.mpr (lt_trans hbo hlt)
        simp [Histogauge.pop, hob, hbv]
    · exact absurd heq (Ne.symm hvo)
    · rw [if_neg (not_lt.mpr (le_of_lt hgt))]
      by_cases hvb : v ≤ b
      · by_cases hbo : b < o
        · simp [Histogauge.pop, hvb, hbo, not_le.mpr hbo]
        · have hob : o ≤ b := not_lt.mp hbo
          simp [Histogauge.pop, hvb, hbo, hob]
      · have hbv : b < v := not_le.mp hvb
        have hob : ¬o ≤ b := not_le.mpr (lt_trans hbv hgt)
        simp [Histogauge.pop, hvb, hob]

theorem Histogauge.Replace_notmem {h : Histogauge L} {l : L} {v o b : ℚ}
    (hb : b ∉ h.buckets) :
    (h.Replace l v o).gaugeVec l (some b) = h.gaugeVec l (some b) := by
  unfold Histogauge.Replace
  split
  · rfl
  · exact replaceLoop_untouched (by
      rintro c hc ⟨-, he⟩
      cases Option.some.inj he
      exact hb hc)

theorem Histogauge.Add_pop_mem {h : Histogauge L} {l : L} {v b : ℚ}
    (hnd : h.buckets.Nodup) (hb : b ∈ h.buckets) :
    (h.Add l v).pop l (some b)
      = h.pop l (some b) + (if v ≤ b then 1 else 0) := by
  simp [Histogauge.pop, Histogauge.Add_series_mem hnd hb]

theorem Histogauge.Add_pop_overflow (h : Histogauge L) (l : L) (v : ℚ) :
    (h.Add l v).pop l none = h.pop l none + 1 := by
  simp [Histogauge.pop, Histogauge.Add_overflow_self]

theorem Histogauge.Remove_pop_mem {h : Histogauge L} {l : L} {v b : ℚ}
    (hnd : h.buckets.Nodup) (hb : b ∈ h.buckets) :
    (h.Remove l v).pop l (some b)
      = h.pop l (some b) - (if v ≤ b then 1 else 0) := by
  simp [Histogauge.pop, Histogauge.Remove_series_mem hnd hb]

theorem Histogauge.Remove_pop_overflow (h : Histogauge L) (l : L) (v : ℚ) :
    (h.Remove l v).pop l none = h.pop l none - 1 := by
  simp [Histogauge.pop, Histogauge.Remove_overflow_self]

/-- C2: starting from the same gauge state, `Replace(labelSet, b, a)` yields
the same populations on every series as `Remove(labelSet, a)` followed by
`Add(labelSet, b)`; the overflow series is left untouched by Replace, and its
population is net-unchanged (decremented then incremented) by Remove+Add. -/
theorem replace_equiv_remove_add {h : Histogauge L} (hnd : h.buckets.Nodup)
    (l : L) (a b : ℚ) :
    (∀ l' k, (h.Replace l b a).pop l' k = ((h.Remove l a).Add l b).pop l' k)
    ∧ (h.Replace l b a).gaugeVec l none = h.gaugeVec l none
    ∧ ((h.Remove l a).Add l b).pop l none = h.pop l none := by
  have hover : ((h.Remove l a).Add l b).pop l none = h.pop l none := by
    rw [Histogauge.Add_pop_overflow, Histogauge.Remove_pop_overflow]
    ring
  refine ⟨fun l' k => ?_, Histogauge.Replace_overflow h l l b a, hover⟩
  by_cases hl : l' = l
  · subst hl
    cases k with
    | none =>
        rw [hover]
        simp [Histogauge.pop, Histogauge.Replace_overflow]
    | some t =>
        by_cases ht : t ∈ h.buckets
        · rw [Histogauge.Replace_pop_mem hnd ht,
            Histogauge.Add_pop_mem (h := h.Remove l' a) hnd ht,
            Histogauge.Remove_pop_mem hnd ht]
          ring
        · simp only [Histogauge.pop, Histogauge.Replace_notmem ht,
            Histogauge.Add_notmem (h := h.Remove l' a) ht,
            Histogauge.Remove_notmem ht]
  · simp only [Histogauge.pop, Histogauge.Replace_other hl,
      Histogauge.Add_other (h := h.Remove l a) hl,
      Histogauge.Remove_other hl]

/-- C3: `Replace(labelSet, v, v)` is a no-op; for `v ≠ o` the call shifts the
population of exactly the thresholds in `[min o v, max o v)` by `-1` when
`v > o` and by `+1` when `v < o`, leaves thresholds outside that interval
untouched, and never changes the overflow series. -/
theorem replace_effect {h : Histogauge L} (hnd : h.buckets.Nodup)
    (l : L) (v o : ℚ) :
    h.Replace l v v = h
    ∧ (v ≠ o → ∀ b ∈ h.buckets,
        (h.Replace l v o).pop l (some b)
          = h.pop l (some b)
            + (if min o v ≤ b ∧ b < max o v then (if o < v then -1 else 1)
               else 0))
    ∧ (∀ b, ¬(min o v ≤ b ∧ b < max o v) →
        (h.Replace l v o).gaugeVec l (some b) = h.gaugeVec l (some b))
    ∧ (∀ l', (h.Replace l v o).gaugeVec l' none = h.gaugeVec l' none) := by
  refine ⟨by simp [Histogauge.Replace], fun hne b hb => ?_,
    fun b hbf => Histogauge.Replace_frame hbf,
    fun l' => Histogauge.Replace_overflow h l l' v o⟩
  rw [Histogauge.Replace_pop_mem hnd hb]
  rcases lt_trichotomy o v with hlt | heq | hgt
  · rw [min_eq_left (le_of_lt hlt), max_eq_right (le_of_lt hlt),
      if_pos hlt]
    by_cases hob : o ≤ b
    · by_cases hvb : v ≤ b
      · rw [if_pos hvb, if_pos hob,
          if_neg (fun hx => absurd hvb (not_le.mpr hx.2))]
        ring
      · rw [if_neg hvb, if_pos hob, if_pos ⟨hob, not_le.mp hvb⟩]
        ring
    · have hvb : ¬v ≤ b := fun hx => hob (le_trans (le_of_lt hlt) hx)
      rw [if_neg hvb, if_neg hob, if_neg (fun hx => hob hx.1)]
      ring
  · exact absurd heq.symm hne
  · rw [min_eq_right (le_of_lt hgt), max_eq_left (le_of_lt hgt),
      if_neg (not_lt.mpr (le_of_lt hgt))]
    by_cases hvb : v ≤ b
    · by_cases hob : o ≤ b
      · rw [if_pos hvb, if_pos hob,
          if_neg (fun hx => absurd hob (not_le.mpr hx.2))]
        ring
      · rw [if_pos hvb, if_neg hob, if_pos ⟨hvb, not_le.mp hob⟩]
        ring
    · have hob : ¬o ≤ b := fun hx => hvb (le_trans (le_of_lt hgt) hx)
      rw [if_neg hvb, if_neg hob, if_neg (fun hx => hvb hx.1)]
      ring

/-- C4: `Add(labelSet, v)` increments exactly the thresholds `b` with
`v ≤ b`, always increments the overflow series, and materializes every
threshold series and the overflow series for the label set; `Remove` is the
inverse, decrementing exactly the same series. -/
theorem add_remove_effect {h : Histogauge L} (hnd : h.buckets.Nodup)
    (l : L) (v : ℚ) :
    (∀ b ∈ h.buckets,
      (h.Add l v).pop l (some b) = h.pop l (some b) + (if v ≤ b then 1 else 0)
      ∧ (h.Add l v).gaugeVec l (some b) ≠ none
      ∧ (h.Remove l v).pop l (some b)
          = h.pop l (some b) - (if v ≤ b then 1 else 0)
      ∧ (h.Remove l v).gaugeVec l (some b) ≠ none)
    ∧ (h.Add l v).pop l none = h.pop l none + 1
    ∧ (h.Add l v).gaugeVec l none ≠ none
    ∧ (h.Remove l v).pop l none = h.pop l none - 1
    ∧ (h.Remove l v).gaugeVec l none ≠ none := by
  refine ⟨fun b hb => ⟨Histogauge.Add_pop_mem hnd hb, ?_,
      Histogauge.Remove_pop_mem hnd hb, ?_⟩,
    Histogauge.Add_pop_overflow h l v, ?_,
    Histogauge.Remove_pop_overflow h l v, ?_⟩
  · rw [Histogauge.Add_series_mem hnd hb]; simp
  · rw [Histogauge.Remove_series_mem hnd hb]; simp
  · rw [Histogauge.Add_overflow_self]; simp
  · rw [Histogauge.Remove_overflow_self]; simp

/-- C10: Replace never materializes a series it does not modify — a threshold
series absent before the call and outside `[min o v, max o v)` stays absent,
and the overflow series is untouched — whereas Add and Remove materialize
every threshold series plus the overflow series on every call. -/
theorem replace_no_materialize {h : Histogauge L} (hnd : h.buckets.Nodup)
    (l : L) (v o b : ℚ) :
    (¬(min o v ≤ b ∧ b < max o v) →
       (h.Replace l v o).gaugeVec l (some b) = h.gaugeVec l (some b))
    ∧ (h.Replace l v o).gaugeVec l none = h.gaugeVec l none
    ∧ (∀ t ∈ h.buckets, (h.Add l v).gaugeVec l (some t) ≠ none
        ∧ (h.Remove l v).gaugeVec l (some t) ≠ none)
    ∧ (h.Add l v).gaugeVec l none ≠ none
    ∧ (h.Remove l v).gaugeVec l none ≠ none := by
  refine ⟨fun hbf => Histogauge.Replace_frame hbf,
    Histogauge.Replace_overflow h l l v o,
    fun t ht => ⟨?_, ?_⟩, ?_, ?_⟩
  · rw [Histogauge.Add_series_mem hnd ht]; simp
  · rw [Histogauge.Remove_series_mem hnd ht]; simp
  · rw [Histogauge.Add_overflow_self]; simp
  · rw [Histogauge.Remove_overflow_self]; simp

/-- A concrete empty gauge over two of the source's packet-rate thresholds,
used to instantiate the general theorems at a concrete input. -/
def hgW : Histogauge String := ⟨fun _ _ => none, [50, 100]⟩

/-- Witness for C2: the equivalence at a concrete gauge and concrete values. -/
theorem replace_equiv_remove_add_witness :
    ([(50 : ℚ), 100].Nodup)
    ∧ ((∀ l' k, (hgW.Replace "r" 60 30).pop l' k
          = ((hgW.Remove "r" 30).Add "r" 60).pop l' k)
      ∧ (hgW.Replace "r" 60 30).gaugeVec "r" none = hgW.gaugeVec "r" none
      ∧ ((hgW.Remove "r" 30).Add "r" 60).pop "r" none = hgW.pop "r" none) :=
  ⟨by decide, replace_equiv_remove_add (by decide) "r" 30 60⟩

/-- Witness for C3: the Replace effect at a concrete gauge and values. -/
theorem replace_effect_witness :
    ([(50 : ℚ), 100].Nodup)
    ∧ (hgW.Replace "r" 40 40 = hgW
      ∧ ((40 : ℚ) ≠ 60 → ∀ b ∈ hgW.buckets,
          (hgW.Replace "r" 40 60).pop "r" (some b)
            = hgW.pop "r" (some b)
              + (if min (60 : ℚ) 40 ≤ b ∧ b < max (60 : ℚ) 40 then
                   (if (60 : ℚ) < 40 then -1 else 1)
                 else 0))
      ∧ (∀ b, ¬(min (60 : ℚ) 40 ≤ b ∧ b < max (60 : ℚ) 40) →
          (hgW.Replace "r" 40 60).gaugeVec "r" (some b)
            = hgW.gaugeVec "r" (some b))
      ∧ (∀ l', (hgW.Replace "r" 40 60).gaugeVec l' none
          = hgW.gaugeVec l' none)) :=
  ⟨by decide, replace_effect (by decide) "r" 40 60⟩

/-- Witness for C4: the Add/Remove effect at a concrete gauge and value. -/
theorem add_remove_effect_witness :
    ([(50 : ℚ), 100].Nodup)
    ∧ ((∀ b ∈ hgW.buckets,
        (hgW.Add "r" 60).pop "r" (some b)
            = hgW.pop "r" (some b) + (if (60 : ℚ) ≤ b then 1 else 0)
        ∧ (hgW.Add "r" 60).gaugeVec "r" (some b) ≠ none
        ∧ (hgW.Remove "r" 60).pop "r" (some b)
            = hgW.pop "r" (some b) - (if (60 : ℚ) ≤ b then 1 else 0)
        ∧ (hgW.Remove "r" 60).gaugeVec "r" (some b) ≠ none)
      ∧ (hgW.Add "r" 60).pop "r" none = hgW.pop "r" none + 1
      ∧ (hgW.Add "r" 60).gaugeVec "r" none ≠ none
      ∧ (hgW.Remove "r" 60).pop "r" none = hgW.pop "r" none - 1
      ∧ (hgW.Remove "r" 60).gaugeVec "r" none ≠ none) :=
  ⟨by decide, add_remove_effect (by decide) "r" 60⟩

/-- Witness for C10: the frame property at a concrete gauge and values. -/
theorem replace_no_materialize_witness :
    ([(50 : ℚ), 100].Nodup)
    ∧ ((¬(min (30 : ℚ) 60 ≤ 100 ∧ (100 : ℚ) < max (30 : ℚ) 60) →
        (hgW.Replace "r" 60 30).gaugeVec "r" (some 100)
          = hgW.gaugeVec "r" (some 100))
      ∧ (hgW.Replace "r" 60 30).gaugeVec "r" none = hgW.gaugeVec "r" none
      ∧ (∀ t ∈ hgW.buckets, (hgW.Add "r" 60).gaugeVec "r" (some t) ≠ none
          ∧ (hgW.Remove "r" 60).gaugeVec "r" (some t) ≠ none)
      ∧ (hgW.Add "r" 60).gaugeVec "r" none ≠ none
      ∧ (hgW.Remove "r" 60).gaugeVec "r" none ≠ none) :=
  ⟨by decide, replace_no_materialize (by decide) "r" 60 30 100⟩

/-- A call against one bucketed gauge: the three public operations.  For
`replace`, `v` is the new value and `o` the old one, in source order. -/
inductive GOp (L : Type) where
  | add (l : L) (v : ℚ)
  | remove (l : L) (v : ℚ)
  | replace (l : L) (v o : ℚ)

def applyOp (h : Histogauge L) : GOp L → Histogauge L
  | .add l v => h.Add l v
  | .remove l v => h.Remove l v
  | .replace l v o => h.Replace l v o

def applyOps (h : Histogauge L) : List (GOp L) → Histogauge L
  | [] => h
  | op :: ops => applyOps (applyOp h op) ops

/-- Ghost state for a call sequence: the multiset of values currently
added-but-not-removed, per label value. -/
def trackOp (m : L → Multiset ℚ) : GOp L → L → Multiset ℚ
  | .add l v => fun l' => if l' = l then v ::ₘ m l else m l'
  | .remove l v => fun l' => if l' = l then (m l).erase v else m l'
  | .replace l v o => fun l' => if l' = l then v ::ₘ (m l).erase o else m l'

def trackOps (m : L → Multiset ℚ) : List (GOp L) → L → Multiset ℚ
  | [] => m
  | op :: ops => trackOps (trackOp m op) ops

/-- A call sequence is well-formed when every Remove, and every Replace's
old value, names a value currently tracked for that label value — the
caller obligation stated in the Remove contract. -/
def validOps (m : L → Multiset ℚ) : List (GOp L) → Bool
  | [] => true
  | .add l v :: ops => validOps (trackOp m (.add l v)) ops
  | .remove l v :: ops =>
      decide (v ∈ m l) && validOps (trackOp m (.remove l v)) ops
  | .replace l v o :: ops =>
      decide (o ∈ m l) && validOps (trackOp m (.replace l v o)) ops

theorem applyOp_buckets (h : Histogauge L) (op : GOp L) :
    (applyOp h op).buckets = h.buckets := by
  cases op with
  | add l v => rfl
  | remove l v => rfl
  | replace l v o => exact Histogauge.Replace_buckets h l v o

/-- The inductive invariant: the overflow population is the ghost multiset's
size, and each threshold population counts the tracked values at or below
that threshold. -/
def hgInv (h : Histogauge L) (m : L → Multiset ℚ) : Prop :=
  (∀ l, h.pop l none = ((m l).card : ℤ))
  ∧ ∀ l b, b ∈ h.buckets →
      h.pop l (some b) = (((m l).filter (fun x => x ≤ b)).card : ℤ)

theorem hgInv_add {h : Histogauge L} {m : L → Multiset ℚ}
    (hnd : h.buckets.Nodup) (hinv : hgInv h m) (l : L) (v : ℚ) :
    hgInv (h.Add l v) (trackOp m (.add l v)) := by
  obtain ⟨hover, hbuck⟩ := hinv
  constructor
  · intro l'
    by_cases hl : l' = l
    · subst hl
      rw [Histogauge.Add_pop_overflow, hover]
      simp [trackOp]
    · have hsame : (h.Add l v).pop l' none = h.pop l' none := by
        simp [Histogauge.pop, Histogauge.Add_other hl]
      rw [hsame, hover]
      simp [trackOp, hl]
  · intro l' b hb
    rw [Histogauge.Add_buckets] at hb
    by_cases hl : l' = l
    · subst hl
      have hm : trackOp m (.add l' v) l' = v ::ₘ m l' := by simp [trackOp]
      rw [Histogauge.Add_pop_mem hnd hb, hbuck l' b hb, hm]
      by_cases hvb : v ≤ b
      · rw [if_pos hvb,
          Multiset.filter_cons_of_pos (p := fun x => x ≤ b) _ hvb,
          Multiset.card_cons]
        push_cast
        ring
      · rw [if_neg hvb,
          Multiset.filter_cons_of_neg (p := fun x => x ≤ b) _ hvb]
        ring
    · have hsame : (h.Add l v).pop l' (some b) = h.pop l' (some b) := by
        simp [Histogauge.pop, Histogauge.Add_other hl]
      rw [hsame, hbuck l' b hb]
      simp [trackOp, hl]

theorem hgInv_remove {h : Histogauge L} {m : L → Multiset ℚ}
    (hnd : h.buckets.Nodup) (hinv : hgInv h m) {l : L} {v : ℚ}
    (hv : v ∈ m l) :
    hgInv (h.Remove l v) (trackOp m (.remove l v)) := by
  obtain ⟨hover, hbuck⟩ := hinv
  have key : v ::ₘ (m l).erase v = m l := Multiset.cons_erase hv
  constructor
  · intro l'
    by_cases hl : l' = l
    · subst hl
      have hm : trackOp m (.remove l' v) l' = (m l').erase v := by
        simp [trackOp]
      rw [Histogauge.Remove_pop_overflow, hover, hm]
      have hcard : (m l').card = ((m l').erase v).card + 1 := by
        conv_lhs => rw [← key]
        rw [Multiset.card_cons]
      rw [hcard]
      push_cast
      ring
    · have hsame : (h.Remove l v).pop l' none = h.pop l' none := by
        simp [Histogauge.pop, Histogauge.Remove_other hl]
      rw [hsame, hover]
      simp [trackOp, hl]
  · intro l' b hb
    rw [Histogauge.Remove_buckets] at hb
    by_cases hl : l' = l
    · subst hl
      have hm : trackOp m (.remove l' v) l' = (m l').erase v := by
        simp [trackOp]
      rw [Histogauge.Remove_pop_mem hnd hb, hbuck l' b hb, hm]
      by_cases hvb : v ≤ b
      · have hfil : (m l').filter (fun x => x ≤ b)
            = v ::ₘ ((m l').erase v).filter (fun x => x ≤ b) := by
          conv_lhs => rw [← key]
          rw [Multiset.filter_cons_of_pos (p := fun x => x ≤ b) _ hvb]
        rw [if_pos hvb, hfil, Multiset.card_cons]
        push_cast
        ring
      · have hfil : (m l').filter (fun x => x ≤ b)
            = ((m l').erase v).filter (fun x => x ≤ b) := by
          conv_lhs => rw [← key]
          rw [Multiset.filter_cons_of_neg (p := fun x => x ≤ b) _ hvb]
        rw [if_neg hvb, hfil]
        ring
    · have hsame : (h.Remove l v).pop l' (some b) = h.pop l' (some b) := by
        simp [Histogauge.pop, Histogauge.Remove_other hl]
      rw [hsame, hbuck l' b hb]
      simp [trackOp, hl]

theorem hgInv_replace {h : Histogauge L} {m : L → Multiset ℚ}
    (hnd : h.buckets.Nodup) (hinv : hgInv h m) {l : L} {v o : ℚ}
    (ho : o ∈ m l) :
    hgInv (h.Replace l v o) (trackOp m (.replace l v o)) := by
  obtain ⟨hover, hbuck⟩ := hinv
  have key : o ::ₘ (m l).erase o = m l := Multiset.cons_erase ho
  constructor
  · intro l'
    by_cases hl : l' = l
    · subst hl
      have hsame : (h.Replace l' v o).pop l' none = h.pop l' none := by
        simp [Histogauge.pop, Histogauge.Replace_overflow]
      have hm : trackOp m (.replace l' v o) l' = v ::ₘ (m l').erase o := by
        simp [trackOp]
      rw [hsame, hover, hm]
      have hcard : (m l').card = ((m l').erase o).card + 1 := by
        conv_lhs => rw [← key]
        rw [Multiset.card_cons]
      rw [hcard, Multiset.card_cons]
    · have hsame : (h.Replace l v o).pop l' none = h.pop l' none := by
        simp [Histogauge.pop, Histogauge.Replace_other hl]
      rw [hsame, hover]
      simp [trackOp, hl]
  · intro l' b hb
    rw [Histogauge.Replace_buckets] at hb
    by_cases hl : l' = l
    · subst hl
      have hm : trackOp m (.replace l' v o) l' = v ::ₘ (m l').erase o := by
        simp [trackOp]
      rw [Histogauge.Replace_pop_mem hnd hb, hbuck l' b hb, hm]
      by_cases hob : o ≤ b
      · have hfil : (m l').filter (fun x => x ≤ b)
            = o ::ₘ ((m l').erase o).filter (fun x => x ≤ b) := by
          conv_lhs => rw [← key]
          rw [Multiset.filter_cons_of_pos (p := fun x => x ≤ b) _ hob]
        by_cases hvb : v ≤ b
        · rw [if_pos hvb, if_pos hob, hfil,
            Multiset.filter_cons_of_pos (p := fun x => x ≤ b) _ hvb,
            Multiset.card_cons, Multiset.card_cons]
          push_cast
          ring
        · rw [if_neg hvb, if_pos hob, hfil,
            Multiset.filter_cons_of_neg (p := fun x => x ≤ b) _ hvb,
            Multiset.card_cons]
          push_cast
          ring
      · have hfil : (m l').filter (fun x => x ≤ b)
            = ((m l').erase o).filter (fun x => x ≤ b) := by
          conv_lhs => rw [← key]
          rw [Multiset.filter_cons_of_neg (p := fun x => x ≤ b) _ hob]
        by_cases hvb : v ≤ b
        · rw [if_pos hvb, if_neg hob, hfil,
            Multiset.filter_cons_of_pos (p := fun x => x ≤ b) _ hvb,
            Multiset.card_cons]
          push_cast
          ring
        · rw [if_neg hvb, if_neg hob, hfil,
            Multiset.filter_cons_of_neg (p := fun x => x ≤ b) _ hvb]
          ring
    · have hsame : (h.Replace l v o).pop l' (some b) = h.pop l' (some b) := by
        simp [Histogauge.pop, Histogauge.Replace_other hl]
      rw [hsame, hbuck l' b hb]
      simp [trackOp, hl]

theorem hgInv_applyOps {h : Histogauge L} {m : L → Multiset ℚ}
    {ops : List (GOp L)} (hnd : h.buckets.Nodup) (hinv : hgInv h m)
    (hval : validOps m ops = true) :
    hgInv (applyOps h ops) (trackOps m ops) := by
  induction ops generalizing h m with
  | nil => exact hinv
  | cons op ops ih =>
      rw [applyOps, trackOps]
      have hnd' : (applyOp h op).buckets.Nodup := by
        rw [applyOp_buckets]
        exact hnd
      cases op with
      | add l v =>
          rw [validOps] at hval
          exact ih hnd' (hgInv_add hnd hinv l v) hval
      | remove l v =>
          rw [validOps, Bool.and_eq_true] at hval
          exact ih hnd' (hgInv_remove hnd hinv (by simpa using hval.1))
            hval.2
      | replace l v o =>
          rw [validOps, Bool.and_eq_true] at hval
          exact ih hnd' (hgInv_replace hnd hinv (by simpa using hval.1))
            hval.2

/-- C1: after any well-formed call sequence (each Remove and each Replace's
old value names a currently tracked value) starting from a fresh gauge,
every threshold population is a non-negative integer, and each overflow
population equals the number of values currently added but not removed for
that label value. -/
theorem bucket_monotonicity {bs : List ℚ} (hnd : bs.Nodup)
    (ops : List (GOp L))
    (hval : validOps (fun _ => 0) ops = true) :
    (∀ l b, b ∈ (applyOps (⟨fun _ _ => none, bs⟩ : Histogauge L) ops).buckets
      → 0 ≤ (applyOps (⟨fun _ _ => none, bs⟩ : Histogauge L) ops).pop l
          (some b))
    ∧ (∀ l, (applyOps (⟨fun _ _ => none, bs⟩ : Histogauge L) ops).pop l none
        = ((trackOps (fun _ => 0) ops l).card : ℤ)) := by
  have hinv0 : hgInv (⟨fun _ _ => none, bs⟩ : Histogauge L) (fun _ => 0) := by
    constructor
    · intro l
      simp [Histogauge.pop]
    · intro l b _
      simp [Histogauge.pop]
  have hinv := hgInv_applyOps hnd hinv0 hval
  refine ⟨fun l b hb => ?_, hinv.1⟩
  rw [hinv.2 l b hb]
  exact Int.ofNat_nonneg _

/-- Witness for C1: a concrete well-formed add/replace/remove sequence. -/
theorem bucket_monotonicity_witness :
    ([(50 : ℚ), 100].Nodup
      ∧ validOps (fun _ => 0)
          [GOp.add "r" 30, GOp.replace "r" 60 30, GOp.remove "r" 60] = true)
    ∧ ((∀ l b, b ∈ (applyOps (⟨fun _ _ => none, [50, 100]⟩ : Histogauge String)
          [GOp.add "r" 30, GOp.replace "r" 60 30, GOp.remove "r" 60]).buckets
        → 0 ≤ (applyOps (⟨fun _ _ => none, [50, 100]⟩ : Histogauge String)
            [GOp.add "r" 30, GOp.replace "r" 60 30,
              GOp.remove "r" 60]).pop l (some b))
      ∧ (∀ l, (applyOps (⟨fun _ _ => none, [50, 100]⟩ : Histogauge String)
          [GOp.add "r" 30, GOp.replace "r" 60 30,
            GOp.remove "r" 60]).pop l none
          = ((trackOps (fun _ => 0)
              [GOp.add "r" 30, GOp.replace "r" 60 30,
                GOp.remove "r" 60] l).card : ℤ))) :=
  ⟨⟨by decide, by decide⟩,
    bucket_monotonicity (by decide)
      [GOp.add "r" 30, GOp.replace "r" 60 30, GOp.remove "r" 60] (by decide)⟩

/-- The parsed pieces of a pubsub channel name, as produced by the source's
`parseKeyName` (fields in the order they are filled there). -/
structure MessageMetadata where
  realm : String
  allocationName : String
  messageType : String

/-- The four cumulative fields of one coturn traffic report, as produced by
the source's `parseTrafficMetric`. -/
structure TrafficMetric where
  rcvp : ℚ
  rcvb : ℚ
  sentp : ℚ
  sentb : ℚ

/-- Per-allocation rate-tracking state (the source's `Allocation`).  Time
is modelled as a rational number of seconds. -/
structure Allocation where
  previousRates : Option TrafficMetric
  lastMetricTimestamp : ℚ

/-- A plain Prometheus counter vector keyed by realm; `none` is an absent
series, and `With(...).Add(x)` materializes it at 0 before adding. -/
def CounterVec : Type := String → Option ℚ

def cvAdd (c : CounterVec) (l : String) (x : ℚ) : CounterVec :=
  fun l' => if l' = l then some ((c l).getD 0 + x) else c l'

/-- A plain Prometheus gauge vector keyed by realm (`allocationGauge`):
`With(...).Inc()` and `With(...).Dec()` materialize at 0 then shift. -/
def PlainGaugeVec : Type := String → Option ℤ

def pgInc (g : PlainGaugeVec) (l : String) : PlainGaugeVec :=
  fun l' => if l' = l then some ((g l).getD 0 + 1) else g l'

def pgDec (g : PlainGaugeVec) (l : String) : PlainGaugeVec :=
  fun l' => if l' = l then some ((g l).getD 0 - 1) else g l'

/-- Go's `strings.HasPrefix`, modelled on the character lists.  For the
ASCII needle used in the source ("new") the byte-level and character-level
prefix tests agree on any UTF-8 payload. -/
def hasPrefixS (p s : String) : Bool := p.data.isPrefixOf s.data

/-- The exporter's mutable state: the metric vectors registered in `init`
plus the global `allocations` map, with the source's variable names. -/
structure ExporterState where
  allocationGauge : PlainGaugeVec
  receivedPackets : CounterVec
  receivedBytes : CounterVec
  sentPackets : CounterVec
  sentBytes : CounterVec
  receivedPacketRateHistogauge : Histogauge String
  receivedByteRateHistogauge : Histogauge String
  sentPacketRateHistogauge : Histogauge String
  sentByteRateHistogauge : Histogauge String
  allocations : String → Option Allocation

/-- One pubsub message: the channel name it arrived on and its payload. -/
structure Msg where
  channel : String
  payload : String

/-- One iteration of `watchTraffic`'s receive loop, handling one message.
The two regex parsing helpers are passed in as `Option`-returning functions
(regex decomposition is out of the modelled core, per the spec); `now`
stands for the `time.Now()` readings of the iteration.  A `prometheus.Labels`
value `{realm: r}` is represented by the realm string `r` itself. -/
def watchTrafficStep (parseKeyName : String → Option MessageMetadata)
    (parseTrafficMetric : String → Option TrafficMetric)
    (now : ℚ) (s : ExporterState) (msg : Msg) : ExporterState :=
  match parseKeyName msg.channel with
  | none => s
  | some metadata =>
    let labels := metadata.realm
    if metadata.messageType = "traffic" then
      match parseTrafficMetric msg.payload with
      | none => s
      | some trafficMetric =>
        let s1 := { s with
          receivedPackets := cvAdd s.receivedPackets labels trafficMetric.rcvp,
          receivedBytes := cvAdd s.receivedBytes labels trafficMetric.rcvb,
          sentPackets := cvAdd s.sentPackets labels trafficMetric.sentp,
          sentBytes := cvAdd s.sentBytes labels trafficMetric.sentb }
        match s1.allocations metadata.allocationName with
        | some allocation =>
          let elapsed := now - allocation.lastMetricTimestamp
          let rcvp_rate := trafficMetric.rcvp / elapsed
          let rcvb_rate := trafficMetric.rcvb / elapsed
          let sentp_rate := trafficMetric.sentp / elapsed
          let sentb_rate := trafficMetric.sentb / elapsed
          let rates : TrafficMetric :=
            ⟨rcvp_rate, rcvb_rate, sentp_rate, sentb_rate⟩
          let s2 :=
            match allocation.previousRates with
            | some prev => { s1 with
                receivedPacketRateHistogauge :=
                  s1.receivedPacketRateHistogauge.Replace labels rcvp_rate
                    prev.rcvp,
                receivedByteRateHistogauge :=
                  s1.receivedByteRateHistogauge.Replace labels rcvb_rate
                    prev.rcvb,
                sentPacketRateHistogauge :=
                  s1.sentPacketRateHistogauge.Replace labels sentp_rate
                    prev.sentp,
                sentByteRateHistogauge :=
                  s1.sentByteRateHistogauge.Replace labels sentb_rate
                    prev.sentb }
            | none => { s1 with
                receivedPacketRateHistogauge :=
                  s1.receivedPacketRateHistogauge.Add labels rcvp_rate,
                receivedByteRateHistogauge :=
                  s1.receivedByteRateHistogauge.Add labels rcvb_rate,
                sentPacketRateHistogauge :=
                  s1.sentPacketRateHistogauge.Add labels sentp_rate,
                sentByteRateHistogauge :=
                  s1.sentByteRateHistogauge.Add labels sentb_rate }
          { s2 with allocations := fun n =>
              if n = metadata.allocationName then some ⟨some rates, now⟩
              else s2.allocations n }
        | none =>
          { s1 with allocations := fun n =>
              if n = metadata.allocationName then some ⟨none, now⟩
              else s1.allocations n }
    else if metadata.messageType = "status" then
      if hasPrefixS "new" msg.payload then
        { s with allocationGauge := pgInc s.allocationGauge labels }
      else if msg.payload = "deleted" then
        let s1 := { s with allocationGauge := pgDec s.allocationGauge labels }
        match s1.allocations metadata.allocationName with
        | some allocation =>
          let s2 :=
            match allocation.previousRates with
            | some prev => { s1 with
                receivedPacketRateHistogauge :=
                  s1.receivedPacketRateHistogauge.Remove labels prev.rcvp,
                receivedByteRateHistogauge :=
                  s1.receivedByteRateHistogauge.Remove labels prev.rcvb,
                sentPacketRateHistogauge :=
                  s1.sentPacketRateHistogauge.Remove labels prev.sentp,
                sentByteRateHistogauge :=
                  s1.sentByteRateHistogauge.Remove labels prev.sentb }
            | none => s1
          { s2 with allocations := fun n =>
              if n = metadata.allocationName then none else s2.allocations n }
        | none => s1
      else s
    else s

/-- C8: an event whose channel name does not parse as an entity identity,
or a traffic event whose payload does not parse as a traffic metric, is
dropped without mutating any state. -/
theorem parse_failure_drops_event
    (pk : String → Option MessageMetadata)
    (pm : String → Option TrafficMetric)
    (now : ℚ) (s : ExporterState) (msg : Msg) :
    (pk msg.channel = none → watchTrafficStep pk pm now s msg = s)
    ∧ (∀ md, pk msg.channel = some md → md.messageType = "traffic" →
        pm msg.payload = none → watchTrafficStep pk pm now s msg = s) := by
  constructor
  · intro hk
    simp [watchTrafficStep, hk]
  · intro md hk hty hm
    simp [watchTrafficStep, hk, hty, hm]

/-- C5: a traffic event for an entity with existing state computes each rate
as the sample field divided by the elapsed seconds since the stored
timestamp, issues Replace (when a previous rate is stored) or Add (when
not) with those rates on each of the four rate gauges, and stores the new
rates and `now` back into the entity state. -/
theorem traffic_rate_update
    (pk : String → Option MessageMetadata)
    (pm : String → Option TrafficMetric)
    (now : ℚ) (s : ExporterState) (msg : Msg)
    (md : MessageMetadata) (tm : TrafficMetric) (a : Allocation)
    (hk : pk msg.channel = some md) (hty : md.messageType = "traffic")
    (hm : pm msg.payload = some tm)
    (ha : s.allocations md.allocationName = some a) :
    (∀ p, a.previousRates = some p →
      (watchTrafficStep pk pm now s msg).receivedPacketRateHistogauge
          = s.receivedPacketRateHistogauge.Replace md.realm
              (tm.rcvp / (now - a.lastMetricTimestamp)) p.rcvp
      ∧ (watchTrafficStep pk pm now s msg).receivedByteRateHistogauge
          = s.receivedByteRateHistogauge.Replace md.realm
              (tm.rcvb / (now - a.lastMetricTimestamp)) p.rcvb
      ∧ (watchTrafficStep pk pm now s msg).sentPacketRateHistogauge
          = s.sentPacketRateHistogauge.Replace md.realm
              (tm.sentp / (now - a.lastMetricTimestamp)) p.sentp
      ∧ (watchTrafficStep pk pm now s msg).sentByteRateHistogauge
          = s.sentByteRateHistogauge.Replace md.realm
              (tm.sentb / (now - a.lastMetricTimestamp)) p.sentb)
    ∧ (a.previousRates = none →
      (watchTrafficStep pk pm now s msg).receivedPacketRateHistogauge
          = s.receivedPacketRateHistogauge.Add md.realm
              (tm.rcvp / (now - a.lastMetricTimestamp))
      ∧ (watchTrafficStep pk pm now s msg).receivedByteRateHistogauge
          = s.receivedByteRateHistogauge.Add md.realm
              (tm.rcvb / (now - a.lastMetricTimestamp))
      ∧ (watchTrafficStep pk pm now s msg).sentPacketRateHistogauge
          = s.sentPacketRateHistogauge.Add md.realm
              (tm.sentp / (now - a.lastMetricTimestamp))
      ∧ (watchTrafficStep pk pm now s msg).sentByteRateHistogauge
          = s.sentByteRateHistogauge.Add md.realm
              (tm.sentb / (now - a.lastMetricTimestamp)))
    ∧ (watchTrafficStep pk pm now s msg).allocations md.allocationName
        = some ⟨some ⟨tm.rcvp / (now - a.lastMetricTimestamp),
            tm.rcvb / (now - a.lastMetricTimestamp),
            tm.sentp / (now - a.lastMetricTimestamp),
            tm.sentb / (now - a.lastMetricTimestamp)⟩, now⟩ := by
  refine ⟨fun p hp => ?_, fun hp => ?_, ?_⟩
  · simp [watchTrafficStep, hk, hty, hm, ha, hp]
  · simp [watchTrafficStep, hk, hty, hm, ha, hp]
  · rcases hp : a.previousRates with _ | p <;>
      simp [watchTrafficStep, hk, hty, hm, ha, hp]

/-- C6: the first traffic event for an unknown entity bumps the four
cumulative counters by the sample fields, leaves all four rate gauges
untouched, and creates the entity state with no previous rate. -/
theorem first_sample_silence
    (pk : String → Option MessageMetadata)
    (pm : String → Option TrafficMetric)
    (now : ℚ) (s : ExporterState) (msg : Msg)
    (md : MessageMetadata) (tm : TrafficMetric)
    (hk : pk msg.channel = some md) (hty : md.messageType = "traffic")
    (hm : pm msg.payload = some tm)
    (ha : s.allocations md.allocationName = none) :
    ((watchTrafficStep pk pm now s msg).receivedPackets md.realm).getD 0
        = (s.receivedPackets md.realm).getD 0 + tm.rcvp
    ∧ ((watchTrafficStep pk pm now s msg).receivedBytes md.realm).getD 0
        = (s.receivedBytes md.realm).getD 0 + tm.rcvb
    ∧ ((watchTrafficStep pk pm now s msg).sentPackets md.realm).getD 0
        = (s.sentPackets md.realm).getD 0 + tm.sentp
    ∧ ((watchTrafficStep pk pm now s msg).sentBytes md.realm).getD 0
        = (s.sentBytes md.realm).getD 0 + tm.sentb
    ∧ (watchTrafficStep pk pm now s msg).receivedPacketRateHistogauge
        = s.receivedPacketRateHistogauge
    ∧ (watchTrafficStep pk pm now s msg).receivedByteRateHistogauge
        = s.receivedByteRateHistogauge
    ∧ (watchTrafficStep pk pm now s msg).sentPacketRateHistogauge
        = s.sentPacketRateHistogauge
    ∧ (watchTrafficStep pk pm now s msg).sentByteRateHistogauge
        = s.sentByteRateHistogauge
    ∧ (watchTrafficStep pk pm now s msg).allocations md.allocationName
        = some ⟨none, now⟩ := by
  simp [watchTrafficStep, hk, hty, hm, ha, cvAdd]

/-- C7: a deletion event always decrements the allocation gauge by one and
ends with no entity state for the entity; rate gauges get a Remove of the
stored previous rates exactly when the entity existed with a populated
previous rate; with no entity state only the allocation gauge changes. -/
theorem deletion_cleanup
    (pk : String → Option MessageMetadata)
    (pm : String → Option TrafficMetric)
    (now : ℚ) (s : ExporterState) (msg : Msg) (md : MessageMetadata)
    (hk : pk msg.channel = some md) (hty : md.messageType = "status")
    (hp : msg.payload = "deleted") :
    ((watchTrafficStep pk pm now s msg).allocationGauge md.realm).getD 0
        = (s.allocationGauge md.realm).getD 0 - 1
    ∧ (watchTrafficStep pk pm now s msg).allocations md.allocationName = none
    ∧ (∀ a p, s.allocations md.allocationName = some a →
        a.previousRates = some p →
          (watchTrafficStep pk pm now s msg).receivedPacketRateHistogauge
              = s.receivedPacketRateHistogauge.Remove md.realm p.rcvp
          ∧ (watchTrafficStep pk pm now s msg).receivedByteRateHistogauge
              = s.receivedByteRateHistogauge.Remove md.realm p.rcvb
          ∧ (watchTrafficStep pk pm now s msg).sentPacketRateHistogauge
              = s.sentPacketRateHistogauge.Remove md.realm p.sentp
          ∧ (watchTrafficStep pk pm now s msg).sentByteRateHistogauge
              = s.sentByteRateHistogauge.Remove md.realm p.sentb)
    ∧ (∀ a, s.allocations md.allocationName = some a →
        a.previousRates = none →
          (watchTrafficStep pk pm now s msg).receivedPacketRateHistogauge
              = s.receivedPacketRateHistogauge
          ∧ (watchTrafficStep pk pm now s msg).receivedByteRateHistogauge
              = s.receivedByteRateHistogauge
          ∧ (watchTrafficStep pk pm now s msg).sentPacketRateHistogauge
              = s.sentPacketRateHistogauge
          ∧ (watchTrafficStep pk pm now s msg).sentByteRateHistogauge
              = s.sentByteRateHistogauge)
    ∧ (s.allocations md.allocationName = none →
        watchTrafficStep pk pm now s msg
          = { s with allocationGauge := pgDec s.allocationGauge md.realm }) := by
  have hnp : hasPrefixS "new" "deleted" = false := by decide
  refine ⟨?_, ?_, fun a p ha hpr => ?_, fun a ha hpr => ?_, fun ha => ?_⟩
  · rcases hsc : s.allocations md.allocationName with _ | a
    · simp [watchTrafficStep, hk, hty, hp, hnp, hsc, pgDec]
    · rcases hpr : a.previousRates with _ | p <;>
        simp [watchTrafficStep, hk, hty, hp, hnp, hsc, hpr, pgDec]
  · rcases hsc : s.allocations md.allocationName with _ | a
    · simp [watchTrafficStep, hk, hty, hp, hnp, hsc]
    · rcases hpr : a.previousRates with _ | p <;>
        simp [watchTrafficStep, hk, hty, hp, hnp, hsc, hpr]
  · simp [watchTrafficStep, hk, hty, hp, hnp, ha, hpr]
  · simp [watchTrafficStep, hk, hty, hp, hnp, ha, hpr]
  · simp [watchTrafficStep, hk, hty, hp, hnp, ha]

/-- C9: on a status event the allocation gauge is incremented exactly when
the payload starts with "new" (any trailing text included); deletion
handling runs exactly when the payload is the literal "deleted"; any other
status payload leaves the state untouched. -/
theorem status_event_dispatch
    (pk : String → Option MessageMetadata)
    (pm : String → Option TrafficMetric)
    (now : ℚ) (s : ExporterState) (msg : Msg) (md : MessageMetadata)
    (hk : pk msg.channel = some md) (hty : md.messageType = "status") :
    (hasPrefixS "new" msg.payload = true →
        watchTrafficStep pk pm now s msg
          = { s with allocationGauge := pgInc s.allocationGauge md.realm })
    ∧ (msg.payload = "deleted" →
        (watchTrafficStep pk pm now s msg).allocationGauge
            = pgDec s.allocationGauge md.realm
        ∧ (watchTrafficStep pk pm now s msg).allocations md.allocationName
            = none)
    ∧ (hasPrefixS "new" msg.payload = false → msg.payload ≠ "deleted" →
        watchTrafficStep pk pm now s msg = s) := by
  refine ⟨fun hnew => ?_, fun hp => ⟨?_, ?_⟩, fun hnew hnd => ?_⟩
  · simp [watchTrafficStep, hk, hty, hnew]
  · have hnp : hasPrefixS "new" "deleted" = false := by decide
    rcases hsc : s.allocations md.allocationName with _ | a
    · simp [watchTrafficStep, hk, hty, hp, hnp, hsc]
    · rcases hpr : a.previousRates with _ | p <;>
        simp [watchTrafficStep, hk, hty, hp, hnp, hsc, hpr]
  · have hnp : hasPrefixS "new" "deleted" = false := by decide
    rcases hsc : s.allocations md.allocationName with _ | a
    · simp [watchTrafficStep, hk, hty, hp, hnp, hsc]
    · rcases hpr : a.previousRates with _ | p <;>
        simp [watchTrafficStep, hk, hty, hp, hnp, hsc, hpr]
  · simp [watchTrafficStep, hk, hty, hnew, hnd]

/-- A parse function that rejects every key, for instantiating theorems. -/
def pkNone : String → Option MessageMetadata := fun _ => none

/-- A payload parse function that rejects every payload. -/
def pmNone : String → Option TrafficMetric := fun _ => none

/-- Metadata of a concrete traffic event. -/
def mdTraffic : MessageMetadata := ⟨"r", "alloc1", "traffic"⟩

/-- Metadata of a concrete status event. -/
def mdStatus : MessageMetadata := ⟨"r", "alloc1", "status"⟩

/-- A key parse function returning the concrete traffic metadata. -/
def pkTraffic : String → Option MessageMetadata := fun _ => some mdTraffic

/-- A key parse function returning the concrete status metadata. -/
def pkStatus : String → Option MessageMetadata := fun _ => some mdStatus

/-- A concrete traffic sample. -/
def tmW : TrafficMetric := ⟨600, 1200, 300, 2400⟩

/-- A payload parse function returning the concrete sample. -/
def pmW : String → Option TrafficMetric := fun _ => some tmW

/-- The exporter state right after `init`: all series absent, no
allocations tracked. -/
def exporterInit : ExporterState :=
  ⟨fun _ => none, fun _ => none, fun _ => none, fun _ => none, fun _ => none,
    hgW, hgW, hgW, hgW, fun _ => none⟩

/-- A state tracking one allocation that has not yet produced a rate. -/
def exporterWithAlloc : ExporterState :=
  { exporterInit with
    allocations := fun n => if n = "alloc1" then some ⟨none, 0⟩ else none }

/-- A state tracking one allocation with a stored previous rate. -/
def exporterWithRates : ExporterState :=
  { exporterInit with
    allocations := fun n => if n = "alloc1" then some ⟨some tmW, 0⟩
      else none }

/-- Witness for C5: a traffic event on a tracked allocation stores the
computed rates and the new timestamp. -/
theorem traffic_rate_update_witness :
    exporterWithAlloc.allocations mdTraffic.allocationName
      = some ⟨none, 0⟩
    ∧ (watchTrafficStep pkTraffic pmW 5 exporterWithAlloc
        ⟨"c", "p"⟩).allocations mdTraffic.allocationName
      = some ⟨some ⟨tmW.rcvp / ((5 : ℚ) - 0), tmW.rcvb / ((5 : ℚ) - 0),
          tmW.sentp / ((5 : ℚ) - 0), tmW.sentb / ((5 : ℚ) - 0)⟩, 5⟩ :=
  ⟨rfl, (traffic_rate_update pkTraffic pmW 5 exporterWithAlloc ⟨"c", "p"⟩
    mdTraffic tmW ⟨none, 0⟩ rfl rfl rfl rfl).2.2⟩

/-- Witness for C6: the first sample for an unknown allocation creates a
state with no previous rate. -/
theorem first_sample_silence_witness :
    exporterInit.allocations mdTraffic.allocationName = none
    ∧ (watchTrafficStep pkTraffic pmW 5 exporterInit
        ⟨"c", "p"⟩).allocations mdTraffic.allocationName = some ⟨none, 5⟩ :=
  ⟨rfl, (first_sample_silence pkTraffic pmW 5 exporterInit ⟨"c", "p"⟩
    mdTraffic tmW rfl rfl rfl rfl).2.2.2.2.2.2.2.2⟩

/-- Witness for C7: a deletion event on a tracked allocation decrements the
allocation gauge and deletes the state. -/
theorem deletion_cleanup_witness :
    exporterWithRates.allocations mdStatus.allocationName
      = some ⟨some tmW, 0⟩
    ∧ ((watchTrafficStep pkStatus pmW 9 exporterWithRates
        ⟨"c", "deleted"⟩).allocationGauge mdStatus.realm).getD 0
      = (exporterWithRates.allocationGauge mdStatus.realm).getD 0 - 1
    ∧ (watchTrafficStep pkStatus pmW 9 exporterWithRates
        ⟨"c", "deleted"⟩).allocations mdStatus.allocationName = none :=
  ⟨rfl,
    (deletion_cleanup pkStatus pmW 9 exporterWithRates ⟨"c", "deleted"⟩
      mdStatus rfl rfl rfl).1,
    (deletion_cleanup pkStatus pmW 9 exporterWithRates ⟨"c", "deleted"⟩
      mdStatus rfl rfl rfl).2.1⟩

/-- Witness for C8: both an unparseable key and an unparseable traffic
payload leave the state untouched. -/
theorem parse_failure_drops_event_witness :
    pkNone "c" = none
    ∧ watchTrafficStep pkNone pmNone 0 exporterInit ⟨"c", "p"⟩ = exporterInit
    ∧ watchTrafficStep pkTraffic pmNone 0 exporterInit ⟨"c", "p"⟩
        = exporterInit :=
  ⟨rfl,
    (parse_failure_drops_event pkNone pmNone 0 exporterInit ⟨"c", "p"⟩).1 rfl,
    (parse_failure_drops_event pkTraffic pmNone 0 exporterInit
      ⟨"c", "p"⟩).2 mdTraffic rfl rfl rfl⟩

/-- Witness for C9: a status payload with "new" as a proper prefix (plus
trailing text) increments the allocation gauge and changes nothing else. -/
theorem status_event_dispatch_witness :
    hasPrefixS "new" "new stuff" = true
    ∧ watchTrafficStep pkStatus pmNone 0 exporterInit ⟨"c", "new stuff"⟩
        = { exporterInit with
            allocationGauge := pgInc exporterInit.allocationGauge
              mdStatus.realm } :=
  ⟨by decide,
    (status_event_dispatch pkStatus pmNone 0 exporterInit
      ⟨"c", "new stuff"⟩ mdStatus rfl rfl).1 (by decide)⟩
